/-
Verification of the Mines-game automation core (state tracking, decision
policy, Q-learning update) against its specification.

Shallow embedding conventions:
* Python floats are modelled as rationals (ℚ); all the arithmetic the
  claims are about (the Q-learning update rule, exploration-rate decay,
  comparisons against 0) is exact in both.
* Python dicts keyed by strings are modelled as association lists with
  first-match lookup (`tableGet` / `tableSet`); Python's `set` of grid
  coordinates is modelled as a `Finset (ℕ × ℕ)`.
* `random.choice(pool)` is modelled by returning the pool the uniform
  draw is taken from; the Python `None` sentinel becomes `Option.none`.
* Methods mutating `self` become functions `StateManager → StateManager`
  (or return the read value); exception handlers that merely log are not
  reachable in the embedded fragment (all embedded operations are total).
-/

import Mathlib

namespace Zoro

/-! ## Configuration constants (config.py) -/

/-- config.py: GRID_SIZE = 5 -/
def GRID_SIZE : Nat := 5

/-- config.py: DEFAULT_BOMBS = 3 -/
def DEFAULT_BOMBS : Nat := 3

/-- config.py: TRAINING_CASHOUT = 3 -/
def TRAINING_CASHOUT : Nat := 3

/-- config.py: LEARNING_RATE = 0.1 -/
def LEARNING_RATE : ℚ := 1 / 10

/-- config.py: DISCOUNT_FACTOR = 0.95 -/
def DISCOUNT_FACTOR : ℚ := 95 / 100

/-- config.py: EXPLORATION_RATE = 0.2 -/
def EXPLORATION_RATE : ℚ := 2 / 10

/-- config.py: EXPLORATION_DECAY = 0.995 -/
def EXPLORATION_DECAY : ℚ := 995 / 1000

/-- config.py: MIN_EXPLORATION_RATE = 0.01 -/
def MIN_EXPLORATION_RATE : ℚ := 1 / 100

/-! ## String-keyed tables (Python dicts as association lists) -/

/-- First-match lookup in an association list, i.e. `d.get(k)` /
`k in d` for a Python dict (keys are unique in a dict, so first match is
the match). -/
def tableGet {α : Type} : List (String × α) → String → Option α
  | [], _ => none
  | (k, v) :: rest, key => if key = k then some v else tableGet rest key

/-- Update/insert of a key in an association list, i.e. `d[k] = v`. -/
def tableSet {α : Type} : List (String × α) → String → α → List (String × α)
  | [], key, v => [(key, v)]
  | (k, w) :: rest, key, v =>
      if key = k then (k, v) :: rest else (k, w) :: tableSet rest key v

/-- The Q-table: state-hash string → (action string → value), as in
`self.q_table` of state_manager.py. -/
def QTable : Type := List (String × List (String × ℚ))

/-- Nested lookup `q_table[state][action]` (None when either level is
missing). -/
def qget (qt : QTable) (state action : String) : Option ℚ :=
  (tableGet qt state).bind fun entries => tableGet entries action

/-! ## Coordinate strings -/

/-- The f-string `f"{pos[0]},{pos[1]}"` used for both action strings and
the revealed-position fragments of the state hash. -/
def posStr (p : Nat × Nat) : String :=
  Nat.repr p.1 ++ "," ++ Nat.repr p.2

/-- Python `','.join(strs)`. -/
def joinComma : List String → String
  | [] => ""
  | [x] => x
  | x :: y :: rest => x ++ "," ++ joinComma (y :: rest)

/-- Lexicographic order on coordinates: Python's `sorted` on pairs of
ints. -/
def posLe (a b : Nat × Nat) : Prop :=
  a.1 < b.1 ∨ (a.1 = b.1 ∧ a.2 ≤ b.2)

instance posLe.decidable : DecidableRel posLe := fun a b => by
  unfold posLe; exact inferInstance

instance posLe.isTrans : IsTrans (Nat × Nat) posLe := by
  constructor; intro a b c hab hbc; unfold posLe at *; omega

instance posLe.isAntisymm : IsAntisymm (Nat × Nat) posLe := by
  constructor; intro a b hab hba
  unfold posLe at *
  have h1 : a.1 = b.1 := by omega
  have h2 : a.2 = b.2 := by omega
  exact Prod.ext h1 h2

instance posLe.isTotal : IsTotal (Nat × Nat) posLe := by
  constructor; intro a b; unfold posLe; omega

/-! ## Grid state (state_manager.py, class StateManager) -/

/-- The fields of `StateManager` the embedded operations read or write.
`revealed_positions` is a Python `set`, hence a `Finset`. -/
structure StateManager where
  grid_size : Nat
  bombs : Nat
  current_grid : List (List String)
  revealed_positions : Finset (Nat × Nat)
  revealed_diamonds : Nat

/-- Writing `self.current_grid[row][col] = result`. -/
def setCell (g : List (List String)) (row col : Nat) (v : String) :
    List (List String) :=
  g.set row ((g.getD row []).set col v)

/-- state_manager.py `update_grid` (lines 164–180): bounds-check
against `grid_size`, then `self.current_grid[row][col] = result`, add
the coordinate to `revealed_positions`, and increment
`revealed_diamonds` when the result is `'diamond'`.  There is no check
against `revealed_positions`.  Two paths leave the state unchanged: an
out-of-bounds coordinate (early return), and a backing grid that lacks
the indexed cell — then the assignment raises `IndexError` before any
mutation and the surrounding `except` handler only logs (for grids
built by `_initialize_empty_grid` the cell always exists when the
bounds check passes). -/
def update_grid (s : StateManager) (row col : Nat) (result : String) :
    StateManager :=
  if row < s.grid_size ∧ col < s.grid_size then
    if row < s.current_grid.length
        ∧ col < (s.current_grid.getD row []).length then
      { s with
        current_grid := setCell s.current_grid row col result
        revealed_positions := insert (row, col) s.revealed_positions
        revealed_diamonds :=
          if result = "diamond" then s.revealed_diamonds + 1
          else s.revealed_diamonds }
    else s
  else s

/-- Row-major enumeration of the full `n × n` coordinate set (the
two nested `for i in range / for j in range` loops). -/
def allCoords (n : Nat) : List (Nat × Nat) :=
  (List.range n).flatMap fun i => (List.range n).map fun j => (i, j)

/-- state_manager.py `get_valid_moves` (lines 124–139): the nested loop
appending every `(i, j)` not in `revealed_positions`, in row-major
order. -/
def get_valid_moves (s : StateManager) : List (Nat × Nat) :=
  (List.range s.grid_size).flatMap fun i =>
    (List.range s.grid_size).filterMap fun j =>
      if (i, j) ∈ s.revealed_positions then none else some (i, j)

/-- state_manager.py `should_cash_out_training` (lines 141–151):
`self.revealed_diamonds >= TRAINING_CASHOUT`. -/
def should_cash_out_training (s : StateManager) : Bool :=
  TRAINING_CASHOUT ≤ s.revealed_diamonds

/-- state_manager.py `get_state_hash` (lines 153–162):
`','.join(f"{p[0]},{p[1]}" for p in sorted(self.revealed_positions))`
followed by `f"{revealed_str}_{self.bombs}_{self.revealed_diamonds}"`. -/
def get_state_hash (s : StateManager) : String :=
  joinComma ((s.revealed_positions.sort posLe).map posStr)
    ++ "_" ++ Nat.repr s.bombs ++ "_" ++ Nat.repr s.revealed_diamonds

/-- state_manager.py `choose_action_training` (lines 255–273): `None`
when no valid move is left, otherwise a uniform draw from the valid
moves (we return the pool of the draw). -/
def choose_action_training (s : StateManager) : Option (List (Nat × Nat)) :=
  let valid_moves := get_valid_moves s
  if valid_moves = [] then none else some valid_moves

/-- The accumulator loop of `choose_action_rl` (lines 293–304): running
best value (`none` plays the role of the initial `-float('inf')`, below
every recorded value) and the list of actions achieving it.  `q > best`
resets the list, `q == best` appends. -/
def argmaxAcc (f : Nat × Nat → Option ℚ) :
    List (Nat × Nat) → Option ℚ → List (Nat × Nat) →
    Option ℚ × List (Nat × Nat)
  | [], bv, ba => (bv, ba)
  | a :: rest, bv, ba =>
    match f a with
    | none => argmaxAcc f rest bv ba
    | some q =>
      match bv with
      | none => argmaxAcc f rest (some q) [a]
      | some b =>
        if b < q then argmaxAcc f rest (some q) [a]
        else if q = b then argmaxAcc f rest (some b) (ba ++ [a])
        else argmaxAcc f rest (some b) ba

/-- state_manager.py `choose_action_rl` (lines 275–326): `None` when no
valid move is left; a uniform draw from all valid moves when the state
is unknown, its entry dict is empty, no valid move has a recorded
value, or the best recorded value is not positive
(`if best_actions and best_value > 0`); otherwise a uniform draw from
the actions achieving the best recorded value.  We return the pool of
the draw. -/
def choose_action_rl (qt : QTable) (s : StateManager) :
    Option (List (Nat × Nat)) :=
  let state := get_state_hash s
  let valid_moves := get_valid_moves s
  if valid_moves = [] then none
  else
    match tableGet qt state with
    | none => some valid_moves
    | some entries =>
      if entries = [] then some valid_moves
      else
        match argmaxAcc (fun a => tableGet entries (posStr a))
            valid_moves none [] with
        | (some best_value, best_actions) =>
          if best_actions ≠ [] ∧ 0 < best_value then some best_actions
          else some valid_moves
        | (none, _) => some valid_moves

/-! ## Learning update rule (rl_model.py, class RLModel) -/

/-- rl_model.py `update_q_values` (lines 48–72).  `valid_moves` is the
value of `self.state_manager.get_valid_moves()` at call time (the
caller invokes this after applying the move, so these are the valid
moves of `new_state`). -/
def update_q_values (qt : QTable) (old_state : String)
    (action : Nat × Nat) (reward : ℚ) (new_state : String)
    (valid_moves : List (Nat × Nat)) : QTable :=
  let action_str := posStr action
  -- if old_state not in self.state_manager.q_table: q_table[old_state] = {}
  let qt1 := match tableGet qt old_state with
    | none => tableSet qt old_state []
    | some _ => qt
  -- current_q = self.state_manager.q_table[old_state].get(action_str, 0.0)
  let current_q := (qget qt1 old_state action_str).getD 0
  -- max_next_q = 0.0; for next_action in valid_moves: max against entries
  let max_next_q :=
    match tableGet qt1 new_state with
    | none => (0 : ℚ)
    | some entries =>
      valid_moves.foldl
        (fun m a =>
          match tableGet entries (posStr a) with
          | some q => max m q
          | none => m) 0
  -- new_q = current_q + lr * (reward + gamma * max_next_q - current_q)
  let new_q := current_q
    + LEARNING_RATE * (reward + DISCOUNT_FACTOR * max_next_q - current_q)
  tableSet qt1 old_state
    (tableSet ((tableGet qt1 old_state).getD []) action_str new_q)

/-- The `f"unknown_{self.state_manager.bombs}_{0}"` key written by
`learn_from_game`. -/
def unknown_key (bombs : Nat) : String :=
  "unknown_" ++ Nat.repr bombs ++ "_" ++ Nat.repr 0

/-- Ensure-then-assign `q_table[key][action] = v` (the
`if key not in q_table: q_table[key] = {}` idiom of lines 123–127 and
134–138). -/
def setQEntry (qt : QTable) (key action : String) (v : ℚ) : QTable :=
  tableSet qt key (tableSet ((tableGet qt key).getD []) action v)

/-- rl_model.py `learn_from_game` (lines 105–138): if the game id is in
neither history, return unchanged; otherwise write `-5.0` under the
`unknown_<bombs>_0` key for every recorded bomb position and `2.0` for
every recorded diamond position. -/
def learn_from_game (qt : QTable) (bombs : Nat)
    (bomb_history diamond_history : List (String × List (Nat × Nat)))
    (game_id : String) : QTable :=
  if tableGet bomb_history game_id = none
      ∧ tableGet diamond_history game_id = none then qt
  else
    let bomb_positions := (tableGet bomb_history game_id).getD []
    let diamond_positions := (tableGet diamond_history game_id).getD []
    let qt1 := bomb_positions.foldl
      (fun t p => setQEntry t (unknown_key bombs) (posStr p) (-5)) qt
    diamond_positions.foldl
      (fun t p => setQEntry t (unknown_key bombs) (posStr p) 2) qt1

/-! ## Turn handlers (ai_game_handler.py, class AIGameHandler) -/

/-- Outcome of one decision step of a move handler: either the cash-out
signal or a click drawn uniformly from a pool of coordinates. -/
inductive MoveDecision where
  | cashOut : MoveDecision
  | click : List (Nat × Nat) → MoveDecision
deriving DecidableEq

/-- ai_game_handler.py `_play_training_move` (lines 155–187): cash out
when `revealed_diamonds >= TRAINING_CASHOUT` (checked before any move
is selected); cash out when `choose_action_training` returns `None`;
otherwise click the chosen position. -/
def play_training_move (s : StateManager) : MoveDecision :=
  if TRAINING_CASHOUT ≤ s.revealed_diamonds then .cashOut
  else
    match choose_action_training s with
    | none => .cashOut
    | some pool => .click pool

/-- The exploration-rate decay step of `_play_rl_move` (lines 216–217):
`max(MIN_EXPLORATION_RATE, self.exploration_rate * EXPLORATION_DECAY)`. -/
def decay_exploration (rate : ℚ) : ℚ :=
  max MIN_EXPLORATION_RATE (rate * EXPLORATION_DECAY)

/-! ## Numeric extraction from round-ended text
(ai_game_handler.py `_extract_win_amount` / `_extract_multiplier`,
lines 310–328).  The patterns are `re.search` with a fixed literal
followed by the group `(\d+(?:\.\d+)?)`; we embed the matcher over the
character list of the text. -/

/-- Does `pat` occur literally at the head of `l`? -/
def litAtHead : List Char → List Char → Bool
  | [], _ => true
  | _ :: _, [] => false
  | p :: ps, c :: cs => p == c && litAtHead ps cs

/-- Longest digit run at the head of `l`, with the remainder. -/
def takeDigits : List Char → List Char × List Char
  | [] => ([], [])
  | c :: cs =>
    if c.isDigit then
      let r := takeDigits cs
      (c :: r.1, r.2)
    else ([], c :: cs)

/-- Value of a digit run (most significant first). -/
def digitsToNat (ds : List Char) : Nat :=
  ds.foldl (fun a c => 10 * a + (c.toNat - '0'.toNat)) 0

/-- Parse the group `\d+(?:\.\d+)?` at the head of `l`, as the rational
value `float` would return; `none` when no digit is at the head (the
group, hence the whole pattern, fails to match here). -/
def parseDecimal (l : List Char) : Option ℚ :=
  let d := takeDigits l
  if d.1 = [] then none
  else
    let ip : ℚ := digitsToNat d.1
    match d.2 with
    | '.' :: r2 =>
      let f := takeDigits r2
      if f.1 = [] then some ip
      else some (ip + (digitsToNat f.1 : ℚ) / (10 : ℚ) ^ f.1.length)
    | _ => some ip

/-- Leftmost `re.search` for the literal `pat` followed by
`(\d+(?:\.\d+)?)`; returns the parsed group. -/
def searchNumAfter (pat : List Char) : List Char → Option ℚ
  | [] => none
  | c :: cs =>
    if litAtHead pat (c :: cs) then
      match parseDecimal (List.drop pat.length (c :: cs)) with
      | some v => some v
      | none => searchNumAfter pat cs
    else searchNumAfter pat cs

/-- Is the first character a digit?  (Whether the group `\d+...` can
start matching here.) -/
def headIsDigit : List Char → Bool
  | [] => false
  | d :: _ => d.isDigit

/-- Decidable occurrence of the pattern `pat` + at-least-one-digit
anywhere in `l` (what `re.search` finding a match means for these
patterns). -/
def hasNumPat (pat : List Char) : List Char → Bool
  | [] => false
  | c :: cs =>
    (litAtHead pat (c :: cs)
        && headIsDigit (List.drop pat.length (c :: cs)))
      || hasNumPat pat cs

/-- ai_game_handler.py `_extract_win_amount` (lines 310–318):
`re.search(r"You won (\d+(?:\.\d+)?)", text)`, returning `0.0` when
there is no match. -/
def extract_win_amount (text : String) : ℚ :=
  match searchNumAfter "You won ".data text.data with
  | some v => v
  | none => 0

/-- ai_game_handler.py `_extract_multiplier` (lines 320–328):
`re.search(r"multiplier (\d+(?:\.\d+)?)", text)`, returning `1.0` when
there is no match. -/
def extract_multiplier (text : String) : ℚ :=
  match searchNumAfter "multiplier ".data text.data with
  | some v => v
  | none => 1

/-! ## Specification-side derived definitions
These are read-only restatements used in theorem statements: the values
present in the table for a list of moves, and the maximum recorded
value.  They are compared against the folds the code performs. -/

/-- The recorded values `q_table[state][posStr a]` for the moves of
`vm` that have an entry. -/
def presentVals (qt : QTable) (state : String) (vm : List (Nat × Nat)) :
    List ℚ :=
  match tableGet qt state with
  | none => []
  | some entries => vm.filterMap fun a => tableGet entries (posStr a)

/-- Maximum of `b` and every value `f` records on `l`. -/
def maxWith (f : Nat × Nat → Option ℚ) (b : ℚ) : List (Nat × Nat) → ℚ
  | [] => b
  | a :: rest =>
    match f a with
    | none => maxWith f b rest
    | some q => maxWith f (max b q) rest

/-- Maximum value `f` records on `l` (`none` when no element has a
value). -/
def bestVal (f : Nat × Nat → Option ℚ) : List (Nat × Nat) → Option ℚ
  | [] => none
  | a :: rest =>
    match f a with
    | none => bestVal f rest
    | some q => some (maxWith f q rest)

/-! ## Association-table lemmas -/

theorem tableGet_tableSet_self {α : Type} (t : List (String × α)) (k : String)
    (v : α) : tableGet (tableSet t k v) k = some v := by
  induction t with
  | nil => simp [tableSet, tableGet]
  | cons hd rest ih =>
    obtain ⟨k', w⟩ := hd
    by_cases h : k = k' <;> simp [tableSet, tableGet, h, ih]

theorem tableGet_tableSet_ne {α : Type} (t : List (String × α))
    (k k' : String) (v : α) (h : k' ≠ k) :
    tableGet (tableSet t k v) k' = tableGet t k' := by
  induction t with
  | nil => simp [tableSet, tableGet, h]
  | cons hd rest ih =>
    obtain ⟨k'', w⟩ := hd
    by_cases h2 : k = k''
    · subst h2; simp [tableSet, tableGet, h]
    · by_cases h3 : k' = k'' <;> simp [tableSet, tableGet, h2, h3, ih]

/-! ## Valid-move lemmas -/

theorem mem_allCoords (n : Nat) (p : Nat × Nat) :
    p ∈ allCoords n ↔ p.1 < n ∧ p.2 < n := by
  obtain ⟨i, j⟩ := p
  simp only [allCoords, List.mem_flatMap, List.mem_map, List.mem_range]
  constructor
  · rintro ⟨a, ha, b, hb, h⟩
    cases h; exact ⟨ha, hb⟩
  · rintro ⟨hi, hj⟩
    exact ⟨i, hi, j, hj, rfl⟩

theorem get_valid_moves_eq_filter (s : StateManager) :
    get_valid_moves s
      = (allCoords s.grid_size).filter
          (fun p => decide (p ∉ s.revealed_positions)) := by
  unfold get_valid_moves allCoords
  rw [List.filter_flatMap]
  apply List.flatMap_congr
  intro i _
  induction List.range s.grid_size with
  | nil => rfl
  | cons j rest ih =>
    by_cases h : (i, j) ∈ s.revealed_positions <;>
      simp [List.filterMap_cons, List.filter_cons, h, ih]

theorem mem_get_valid_moves (s : StateManager) (p : Nat × Nat) :
    p ∈ get_valid_moves s
      ↔ (p.1 < s.grid_size ∧ p.2 < s.grid_size)
          ∧ p ∉ s.revealed_positions := by
  rw [get_valid_moves_eq_filter, List.mem_filter, mem_allCoords]
  simp

theorem tableGet_nil {α : Type} (k : String) :
    tableGet ([] : List (String × α)) k = none := rfl

theorem qget_setQEntry_self (qt : QTable) (k a : String) (v : ℚ) :
    qget (setQEntry qt k a v) k a = some v := by
  unfold setQEntry qget
  rw [tableGet_tableSet_self]
  simp [tableGet_tableSet_self]

theorem qget_setQEntry_ne (qt : QTable) (k k' a : String) (v : ℚ)
    (h : k' ≠ k) : qget (setQEntry qt k a v) k' = qget qt k' := by
  unfold setQEntry qget
  rw [tableGet_tableSet_ne _ _ _ _ h]

/-- The fold the code performs over `valid_moves` (skipping missing
entries, starting from `init`) equals folding `max` over the present
values. -/
theorem foldlMax_eq (es : List (String × ℚ)) (vm : List (Nat × Nat))
    (init : ℚ) :
    vm.foldl
        (fun m a =>
          match tableGet es (posStr a) with
          | some q => max m q
          | none => m) init
      = (vm.filterMap fun a => tableGet es (posStr a)).foldl max init := by
  induction vm generalizing init with
  | nil => rfl
  | cons a rest ih =>
    cases h : tableGet es (posStr a) <;>
      simp [List.foldl_cons, List.filterMap_cons, h, ih]

/-! ## Claim C1 -/

/-- C1 counterexample: a freshly initialized 5×5 grid (as
`_initialize_empty_grid` builds it) with `(0,0)` already revealed and
one diamond counted; `update_grid 0 0 "diamond"` is not rejected — it
increments `revealed_diamonds` to 2, so the state is not left
unchanged and the good-reveal counter is double-counted. -/
theorem update_grid_rerevealed_cex :
    ((0, 0) : Nat × Nat)
        ∈ (StateManager.mk 5 3
            (List.replicate 5 (List.replicate 5 "unknown"))
            {(0, 0)} 1).revealed_positions
      ∧ (update_grid
            (StateManager.mk 5 3
              (List.replicate 5 (List.replicate 5 "unknown"))
              {(0, 0)} 1) 0 0 "diamond").revealed_diamonds
          = (StateManager.mk 5 3
              (List.replicate 5 (List.replicate 5 "unknown"))
              {(0, 0)} 1).revealed_diamonds + 1 := by
  constructor
  · decide
  · rfl

/-- C1 (amended): `update_grid` rejects (leaves the state unchanged)
only an out-of-bounds coordinate, or a backing grid lacking the
indexed cell (the caught `IndexError`; never the case for grids built
by `_initialize_empty_grid`).  Calling it with an in-bounds coordinate
whose cell exists and that is already in `revealed_positions` is not
rejected: the cell is overwritten, the revealed set is unchanged (set
insertion of a member), the configuration fields are untouched, and
`revealed_diamonds` is incremented again when the result is
`'diamond'` (the good-reveal counter can double-count a cell). -/
theorem update_grid_rerevealed (s : StateManager) (row col : Nat)
    (result : String) (hr : row < s.grid_size) (hc : col < s.grid_size)
    (hrow : row < s.current_grid.length)
    (hcol : col < (s.current_grid.getD row []).length)
    (hmem : (row, col) ∈ s.revealed_positions) :
    (update_grid s row col result).revealed_positions
        = s.revealed_positions
      ∧ (update_grid s row col result).revealed_diamonds
          = s.revealed_diamonds + (if result = "diamond" then 1 else 0)
      ∧ (update_grid s row col result).current_grid
          = setCell s.current_grid row col result
      ∧ (update_grid s row col result).bombs = s.bombs
      ∧ (update_grid s row col result).grid_size = s.grid_size := by
  unfold update_grid
  rw [if_pos ⟨hr, hc⟩, if_pos ⟨hrow, hcol⟩]
  refine ⟨Finset.insert_eq_self.mpr hmem, ?_, rfl, rfl, rfl⟩
  by_cases h : result = "diamond" <;> simp [h]

/-- C1 witness: the amended statement at the concrete counterexample
state (fully initialized 5×5 grid). -/
theorem update_grid_rerevealed_witness :
    (update_grid
          (StateManager.mk 5 3
            (List.replicate 5 (List.replicate 5 "unknown"))
            {(0, 0)} 1) 0 0 "diamond").revealed_positions
        = (StateManager.mk 5 3
            (List.replicate 5 (List.replicate 5 "unknown"))
            {(0, 0)} 1).revealed_positions
      ∧ (update_grid
            (StateManager.mk 5 3
              (List.replicate 5 (List.replicate 5 "unknown"))
              {(0, 0)} 1) 0 0 "diamond").revealed_diamonds
          = (StateManager.mk 5 3
              (List.replicate 5 (List.replicate 5 "unknown"))
              {(0, 0)} 1).revealed_diamonds
              + (if "diamond" = "diamond" then 1 else 0) := by
  have h := update_grid_rerevealed
    (StateManager.mk 5 3 (List.replicate 5 (List.replicate 5 "unknown"))
      {(0, 0)} 1)
    0 0 "diamond" (by decide) (by decide) (by decide) (by decide)
    (by decide)
  exact ⟨h.1, h.2.1⟩

/-! ## Claim C4 -/

/-- C4 (confirmed): the decay step computes
`max(MIN_EXPLORATION_RATE, rate * EXPLORATION_DECAY)`; for every rate
at or above the floor the result does not increase, the result is never
below the floor (for any rate at all), and the floor is a fixed point
of the decay. -/
theorem decay_exploration_spec (rate : ℚ) :
    (MIN_EXPLORATION_RATE ≤ rate → decay_exploration rate ≤ rate)
      ∧ MIN_EXPLORATION_RATE ≤ decay_exploration rate
      ∧ decay_exploration MIN_EXPLORATION_RATE = MIN_EXPLORATION_RATE := by
  unfold decay_exploration MIN_EXPLORATION_RATE EXPLORATION_DECAY
  refine ⟨fun h => ?_, le_max_left _ _, ?_⟩
  · have h0 : (0 : ℚ) ≤ rate := le_trans (by norm_num) h
    exact max_le h (by nlinarith)
  · exact max_eq_left (by norm_num)

/-- C4 witness: decaying the initial exploration rate 0.2. -/
theorem decay_exploration_witness :
    MIN_EXPLORATION_RATE ≤ EXPLORATION_RATE
      ∧ decay_exploration EXPLORATION_RATE ≤ EXPLORATION_RATE :=
  ⟨by norm_num [MIN_EXPLORATION_RATE, EXPLORATION_RATE],
    (decay_exploration_spec EXPLORATION_RATE).1
      (by norm_num [MIN_EXPLORATION_RATE, EXPLORATION_RATE])⟩

/-! ## Claim C5 -/

/-- C5 (confirmed): `get_valid_moves` returns exactly the coordinates
of the grid not in `revealed_positions`, in row-major order (it is the
row-major enumeration filtered by non-membership, hence a sublist of
the row-major enumeration); it is disjoint from the revealed set, and
when the revealed set lies inside the grid (the RevealedSet ⊆
all-coordinates invariant of the data model) their union is the full
coordinate set. -/
theorem get_valid_moves_spec (s : StateManager) :
    get_valid_moves s
        = (allCoords s.grid_size).filter
            (fun p => decide (p ∉ s.revealed_positions))
      ∧ List.Sublist (get_valid_moves s) (allCoords s.grid_size)
      ∧ Disjoint (get_valid_moves s).toFinset s.revealed_positions
      ∧ ((∀ q ∈ s.revealed_positions, q ∈ allCoords s.grid_size) →
          (get_valid_moves s).toFinset ∪ s.revealed_positions
            = (allCoords s.grid_size).toFinset) := by
  refine ⟨get_valid_moves_eq_filter s, ?_, ?_, ?_⟩
  · rw [get_valid_moves_eq_filter]; exact List.filter_sublist _
  · rw [Finset.disjoint_left]
    intro p hp
    rw [List.mem_toFinset, mem_get_valid_moves] at hp
    exact hp.2
  · intro hsub
    ext p
    rw [Finset.mem_union, List.mem_toFinset, List.mem_toFinset,
      mem_get_valid_moves]
    constructor
    · rintro (⟨hb, _⟩ | hrev)
      · exact (mem_allCoords _ _).mpr hb
      · exact hsub p hrev
    · intro hall
      by_cases hrev : p ∈ s.revealed_positions
      · exact Or.inr hrev
      · exact Or.inl ⟨(mem_allCoords _ _).mp hall, hrev⟩

/-- C5 witness: a 2×2 grid with one revealed cell. -/
theorem get_valid_moves_witness :
    (∀ q ∈ (StateManager.mk 2 3 [] {(0, 1)} 0).revealed_positions,
        q ∈ allCoords 2)
      ∧ (get_valid_moves (StateManager.mk 2 3 [] {(0, 1)} 0)).toFinset
            ∪ (StateManager.mk 2 3 [] {(0, 1)} 0).revealed_positions
          = (allCoords 2).toFinset :=
  ⟨by decide,
    (get_valid_moves_spec (StateManager.mk 2 3 [] {(0, 1)} 0)).2.2.2
      (by decide)⟩

/-! ## Claim C6 -/

/-- C6 (confirmed): when no valid move is left, both strategies return
the `None` sentinel (the cash-out signal); both are total functions, so
neither can raise. -/
theorem choose_action_no_moves (s : StateManager) (qt : QTable)
    (h : get_valid_moves s = []) :
    choose_action_training s = none ∧ choose_action_rl qt s = none := by
  constructor
  · simp [choose_action_training, h]
  · simp [choose_action_rl, h]

/-- C6 witness: a fully revealed 1×1 grid. -/
theorem choose_action_no_moves_witness :
    get_valid_moves (StateManager.mk 1 3 [] {(0, 0)} 1) = []
      ∧ choose_action_training (StateManager.mk 1 3 [] {(0, 0)} 1) = none
      ∧ choose_action_rl [] (StateManager.mk 1 3 [] {(0, 0)} 1) = none :=
  ⟨by decide,
    (choose_action_no_moves (StateManager.mk 1 3 [] {(0, 0)} 1) []
      (by decide)).1,
    (choose_action_no_moves (StateManager.mk 1 3 [] {(0, 0)} 1) []
      (by decide)).2⟩

/-! ## Claim C8 -/

/-- C8 (confirmed): `get_state_hash` reads only the revealed-position
set (a `Finset`, so independent of insertion order, and serialized via
sorting), the bomb count, and the good-reveal counter; two states
agreeing on those three fields — whatever their grids or grid sizes —
get character-identical state keys.  It is a pure function: computing
it returns a string and touches no state. -/
theorem get_state_hash_deterministic (s t : StateManager)
    (h1 : s.revealed_positions = t.revealed_positions)
    (h2 : s.bombs = t.bombs)
    (h3 : s.revealed_diamonds = t.revealed_diamonds) :
    get_state_hash s = get_state_hash t := by
  simp only [get_state_hash, h1, h2, h3]

/-- C8 witness: two states built with different grids, grid sizes and
insertion orders of the same revealed set have equal state keys. -/
theorem get_state_hash_deterministic_witness :
    get_state_hash (StateManager.mk 5 3 [] {(0, 1), (1, 0)} 2)
      = get_state_hash
          (StateManager.mk 7 3 [["x"]] {(1, 0), (0, 1)} 2) :=
  get_state_hash_deterministic _ _ (by decide) (by decide) (by decide)

/-! ## Claim C9 -/

/-- C9 (confirmed): in training mode, once `revealed_diamonds` has
reached `TRAINING_CASHOUT` the decision step signals cash-out before
any move is selected (`should_cash_out_training` is true and
`play_training_move` returns the cash-out decision, not a click). -/
theorem play_training_move_cashout (s : StateManager)
    (h : TRAINING_CASHOUT ≤ s.revealed_diamonds) :
    play_training_move s = MoveDecision.cashOut
      ∧ should_cash_out_training s = true := by
  constructor
  · simp [play_training_move, h]
  · simp [should_cash_out_training, h]

/-- C9 witness: the spec scenario — 5×5 board, 3 bombs, threshold 3,
three good reveals made: the 4th decision is cash-out. -/
theorem play_training_move_cashout_witness :
    TRAINING_CASHOUT
        ≤ (StateManager.mk 5 3 [] {(0, 0), (0, 1), (0, 2)} 3).revealed_diamonds
      ∧ play_training_move (StateManager.mk 5 3 [] {(0, 0), (0, 1), (0, 2)} 3)
          = MoveDecision.cashOut :=
  ⟨by decide,
    (play_training_move_cashout
      (StateManager.mk 5 3 [] {(0, 0), (0, 1), (0, 2)} 3) (by decide)).1⟩

/-! ## Claim C2 -/

/-- C2 counterexample: with the new state recording `-5.0` for the sole
valid move `(0,0)` (the key/value `learn_from_game` writes for a bomb),
a zero-reward update from a fresh old state stores `0.0`: the code
clamps `bestNext` below at `0.0`, while the claim's
`bestNext = max over valid moves of ValueTable[newState][a']` is `-5`,
which would store `0 + 0.1 * (0 + 0.95 * (-5) - 0) = -0.475 ≠ 0`. -/
theorem update_q_values_cex :
    qget [("ns", [("0,0", (-5 : ℚ))])] "ns" (posStr ((0, 0) : Nat × Nat))
        = some (-5)
      ∧ qget (update_q_values [("ns", [("0,0", (-5 : ℚ))])] "s" (0, 1) 0
            "ns" [(0, 0)]) "s" (posStr ((0, 1) : Nat × Nat))
          = some 0
      ∧ (0 : ℚ)
          ≠ (qget [("ns", [("0,0", (-5 : ℚ))])] "s"
                (posStr ((0, 1) : Nat × Nat))).getD 0
              + LEARNING_RATE * (0 + DISCOUNT_FACTOR * (-5)
                  - (qget [("ns", [("0,0", (-5 : ℚ))])] "s"
                      (posStr ((0, 1) : Nat × Nat))).getD 0) := by
  have hcur : (qget [("ns", [("0,0", (-5 : ℚ))])] "s"
      (posStr ((0, 1) : Nat × Nat))).getD 0 = 0 := rfl
  refine ⟨rfl, ?_, ?_⟩
  · calc qget (update_q_values [("ns", [("0,0", (-5 : ℚ))])] "s" (0, 1) 0
          "ns" [(0, 0)]) "s" (posStr ((0, 1) : Nat × Nat))
        = some ((0 : ℚ) + LEARNING_RATE
            * (0 + DISCOUNT_FACTOR * (max 0 (-5)) - 0)) := rfl
      _ = some 0 := by
          rw [max_eq_left (by norm_num : (-5 : ℚ) ≤ 0)]
          norm_num [LEARNING_RATE, DISCOUNT_FACTOR]
  · rw [hcur]
    norm_num [LEARNING_RATE, DISCOUNT_FACTOR]

/-- C2 (amended): `update_q_values` stores under
`(oldState, action)` the value
`current + learningRate * (reward + discountFactor * bestNext - current)`
with missing entries read as `0.0` — but `bestNext` is the maximum of
`0.0` together with the recorded estimates of the new state over the
valid moves (the code starts its max-fold at `0.0`, so `bestNext` is
clamped below at zero rather than being `0.0` only when the new state
is unseen or has no entries).  The claim's concrete instance holds:
from an empty table, reward `+1` stores `0.1`. -/
theorem update_q_values_spec (qt : QTable) (old_state : String)
    (action : Nat × Nat) (reward : ℚ) (new_state : String)
    (valid_moves : List (Nat × Nat)) :
    qget (update_q_values qt old_state action reward new_state
          valid_moves) old_state (posStr action)
        = some ((qget qt old_state (posStr action)).getD 0
            + LEARNING_RATE * (reward
                + DISCOUNT_FACTOR
                    * ((presentVals qt new_state valid_moves).foldl max 0)
                - (qget qt old_state (posStr action)).getD 0))
      ∧ qget (update_q_values [] old_state action 1 new_state
            valid_moves) old_state (posStr action)
          = some (1 / 10) := by
  have main : ∀ (qt : QTable) (reward : ℚ),
      qget (update_q_values qt old_state action reward new_state
          valid_moves) old_state (posStr action)
        = some ((qget qt old_state (posStr action)).getD 0
            + LEARNING_RATE * (reward
                + DISCOUNT_FACTOR
                    * ((presentVals qt new_state valid_moves).foldl max 0)
                - (qget qt old_state (posStr action)).getD 0)) := by
    intro qt reward
    unfold update_q_values presentVals
    cases hold : tableGet qt old_state with
    | none =>
      simp only [hold]
      have hq1 : tableGet (tableSet qt old_state []) old_state
          = some [] := tableGet_tableSet_self qt old_state []
      by_cases hnew : new_state = old_state
      · subst hnew
        simp only [hq1, hold, qget, Option.bind, tableGet_nil,
          Option.getD_none, foldlMax_eq]
        rw [tableGet_tableSet_self]
        simp [tableGet_tableSet_self, tableGet_nil]
      · rw [tableGet_tableSet_ne _ _ _ _ hnew]
        simp only [hq1, hold, qget, Option.bind, tableGet_nil,
          Option.getD_none]
        cases hns : tableGet qt new_state with
        | none =>
          rw [tableGet_tableSet_self]
          simp [tableGet_tableSet_self, tableGet_nil]
        | some es2 =>
          rw [tableGet_tableSet_self]
          simp [tableGet_tableSet_self, tableGet_nil, foldlMax_eq]
    | some es =>
      simp only [hold, qget, Option.bind]
      cases hns : tableGet qt new_state with
      | none =>
        rw [tableGet_tableSet_self]
        simp [tableGet_tableSet_self, hold]
      | some es2 =>
        rw [tableGet_tableSet_self]
        simp [tableGet_tableSet_self, hold, foldlMax_eq]
  refine ⟨main qt reward, ?_⟩
  rw [main [] 1]
  norm_num [qget, tableGet_nil, presentVals, LEARNING_RATE,
    DISCOUNT_FACTOR]

/-! ## Argmax-fold lemmas (for Claim C3) -/

theorem maxWith_cons_none {f : Nat × Nat → Option ℚ} {a : Nat × Nat}
    (b : ℚ) (l : List (Nat × Nat)) (hfa : f a = none) :
    maxWith f b (a :: l) = maxWith f b l := by
  simp [maxWith, hfa]

theorem maxWith_cons_some {f : Nat × Nat → Option ℚ} {a : Nat × Nat}
    {q : ℚ} (b : ℚ) (l : List (Nat × Nat)) (hfa : f a = some q) :
    maxWith f b (a :: l) = maxWith f (max b q) l := by
  simp [maxWith, hfa]

theorem bestVal_cons_none {f : Nat × Nat → Option ℚ} {a : Nat × Nat}
    (l : List (Nat × Nat)) (hfa : f a = none) :
    bestVal f (a :: l) = bestVal f l := by
  simp [bestVal, hfa]

theorem bestVal_cons_some {f : Nat × Nat → Option ℚ} {a : Nat × Nat}
    {q : ℚ} (l : List (Nat × Nat)) (hfa : f a = some q) :
    bestVal f (a :: l) = some (maxWith f q l) := by
  simp [bestVal, hfa]

theorem argmaxAcc_cons_none {f : Nat × Nat → Option ℚ} {a : Nat × Nat}
    (l : List (Nat × Nat)) (bv : Option ℚ) (ba : List (Nat × Nat))
    (hfa : f a = none) :
    argmaxAcc f (a :: l) bv ba = argmaxAcc f l bv ba := by
  simp [argmaxAcc, hfa]

theorem argmaxAcc_cons_fresh {f : Nat × Nat → Option ℚ} {a : Nat × Nat}
    {q : ℚ} (l : List (Nat × Nat)) (ba : List (Nat × Nat))
    (hfa : f a = some q) :
    argmaxAcc f (a :: l) none ba = argmaxAcc f l (some q) [a] := by
  simp [argmaxAcc, hfa]

theorem argmaxAcc_cons_lt {f : Nat × Nat → Option ℚ} {a : Nat × Nat}
    {q b : ℚ} (l : List (Nat × Nat)) (ba : List (Nat × Nat))
    (hfa : f a = some q) (h : b < q) :
    argmaxAcc f (a :: l) (some b) ba = argmaxAcc f l (some q) [a] := by
  simp [argmaxAcc, hfa, h]

theorem argmaxAcc_cons_eq {f : Nat × Nat → Option ℚ} {a : Nat × Nat}
    {q b : ℚ} (l : List (Nat × Nat)) (ba : List (Nat × Nat))
    (hfa : f a = some q) (h : q = b) :
    argmaxAcc f (a :: l) (some b) ba
      = argmaxAcc f l (some b) (ba ++ [a]) := by
  simp [argmaxAcc, hfa, h]

theorem argmaxAcc_cons_gt {f : Nat × Nat → Option ℚ} {a : Nat × Nat}
    {q b : ℚ} (l : List (Nat × Nat)) (ba : List (Nat × Nat))
    (hfa : f a = some q) (h : q < b) :
    argmaxAcc f (a :: l) (some b) ba = argmaxAcc f l (some b) ba := by
  have h1 : ¬b < q := not_lt.mpr h.le
  have h2 : q ≠ b := ne_of_lt h
  simp [argmaxAcc, hfa, h1, h2]

theorem maxWith_ge (f : Nat × Nat → Option ℚ) (l : List (Nat × Nat)) :
    ∀ b : ℚ, b ≤ maxWith f b l := by
  induction l with
  | nil => intro b; exact le_refl b
  | cons a rest ih =>
    intro b
    cases hfa : f a with
    | none => rw [maxWith_cons_none b rest hfa]; exact ih b
    | some q =>
      rw [maxWith_cons_some b rest hfa]
      exact le_trans (le_max_left b q) (ih (max b q))

theorem maxWith_ub (f : Nat × Nat → Option ℚ) (l : List (Nat × Nat)) :
    ∀ b : ℚ, ∀ a ∈ l, ∀ q : ℚ, f a = some q → q ≤ maxWith f b l := by
  induction l with
  | nil => intro b a ha; exact absurd ha (List.not_mem_nil a)
  | cons hd rest ih =>
    intro b a ha q hq
    rcases List.mem_cons.mp ha with h | h
    · subst h
      rw [maxWith_cons_some b rest hq]
      exact le_trans (le_max_right b q) (maxWith_ge f rest (max b q))
    · cases hfa : f hd with
      | none => rw [maxWith_cons_none b rest hfa]; exact ih b a h q hq
      | some p =>
        rw [maxWith_cons_some b rest hfa]
        exact ih (max b p) a h q hq

theorem maxWith_achieved (f : Nat × Nat → Option ℚ)
    (l : List (Nat × Nat)) :
    ∀ b : ℚ, maxWith f b l = b ∨ ∃ a ∈ l, f a = some (maxWith f b l) := by
  induction l with
  | nil => intro b; exact Or.inl rfl
  | cons hd rest ih =>
    intro b
    cases hfa : f hd with
    | none =>
      rw [maxWith_cons_none b rest hfa]
      rcases ih b with h | ⟨a, ha, hv⟩
      · exact Or.inl h
      · exact Or.inr ⟨a, List.mem_cons_of_mem hd ha, hv⟩
    | some q =>
      rw [maxWith_cons_some b rest hfa]
      rcases ih (max b q) with h | ⟨a, ha, hv⟩
      · rcases le_total q b with hle | hle
        · rw [h, max_eq_left hle]
          exact Or.inl rfl
        · refine Or.inr ⟨hd, List.mem_cons_self hd rest, ?_⟩
          rw [hfa, h, max_eq_right hle]
      · exact Or.inr ⟨a, List.mem_cons_of_mem hd ha, hv⟩

/-- The accumulator loop, started with a current best `b` and holders
`ba`, returns the overall maximum and the actions achieving it (with
`ba` kept exactly when no strictly better value appears). -/
theorem argmaxAcc_some (f : Nat × Nat → Option ℚ) (l : List (Nat × Nat)) :
    ∀ (b : ℚ) (ba : List (Nat × Nat)),
    argmaxAcc f l (some b) ba
      = (some (maxWith f b l),
         (if maxWith f b l = b then ba else [])
           ++ l.filter fun a => decide (f a = some (maxWith f b l))) := by
  induction l with
  | nil => intro b ba; simp [argmaxAcc, maxWith]
  | cons hd rest ih =>
    intro b ba
    cases hfa : f hd with
    | none =>
      rw [argmaxAcc_cons_none rest (some b) ba hfa,
        maxWith_cons_none b rest hfa, ih b ba, List.filter_cons]
      simp [hfa]
    | some q =>
      rcases lt_trichotomy b q with hlt | heq | hgt
      · rw [argmaxAcc_cons_lt rest ba hfa hlt,
          maxWith_cons_some b rest hfa, max_eq_right hlt.le, ih q [hd],
          List.filter_cons]
        have hne : maxWith f q rest ≠ b :=
          fun h => absurd (h ▸ maxWith_ge f rest q) (not_le.mpr hlt)
        rw [if_neg hne]
        by_cases hqm : maxWith f q rest = q
        · simp [hfa, hqm]
        · have hne2 : ¬(f hd = some (maxWith f q rest)) := by
            rw [hfa]
            intro h
            exact hqm (Option.some.inj h).symm
          simp [hqm, hne2]
      · rw [← heq] at hfa
        rw [argmaxAcc_cons_eq rest ba hfa rfl,
          maxWith_cons_some b rest hfa, max_self, ih b (ba ++ [hd])]
        by_cases hqm : maxWith f b rest = b
        · simp [List.filter_cons, hfa, hqm]
        · have hne2 : ¬(f hd = some (maxWith f b rest)) := by
            rw [hfa]
            intro h
            exact hqm (Option.some.inj h).symm
          simp [List.filter_cons, hqm, hne2]
      · rw [argmaxAcc_cons_gt rest ba hfa hgt,
          maxWith_cons_some b rest hfa, max_eq_left hgt.le, ih b ba,
          List.filter_cons]
        have hne2 : ¬(f hd = some (maxWith f b rest)) := by
          rw [hfa]
          intro h
          have h2 := (Option.some.inj h).symm
          exact absurd (h2 ▸ maxWith_ge f rest b) (not_le.mpr hgt)
        simp [hne2]

/-- The loop as the code starts it (`best_value = -inf`,
`best_actions = []`): it computes the maximum recorded value and the
list of valid moves achieving it. -/
theorem argmaxAcc_start (f : Nat × Nat → Option ℚ)
    (l : List (Nat × Nat)) :
    argmaxAcc f l none []
      = (bestVal f l,
         match bestVal f l with
         | none => []
         | some m => l.filter fun a => decide (f a = some m)) := by
  induction l with
  | nil => simp [argmaxAcc, bestVal]
  | cons hd rest ih =>
    cases hfa : f hd with
    | none =>
      rw [argmaxAcc_cons_none rest none [] hfa,
        bestVal_cons_none rest hfa, ih]
      cases hbv : bestVal f rest with
      | none => simp
      | some m => simp [List.filter_cons, hfa]
    | some q =>
      rw [argmaxAcc_cons_fresh rest [] hfa,
        bestVal_cons_some rest hfa, argmaxAcc_some f rest q [hd]]
      by_cases hqm : maxWith f q rest = q
      · simp [List.filter_cons, hfa, hqm]
      · have hne2 : ¬(f hd = some (maxWith f q rest)) := by
          rw [hfa]
          intro h
          exact hqm (Option.some.inj h).symm
        simp [List.filter_cons, hqm, hne2]

theorem bestVal_none_iff (f : Nat × Nat → Option ℚ)
    (l : List (Nat × Nat)) :
    bestVal f l = none ↔ ∀ a ∈ l, f a = none := by
  induction l with
  | nil => simp [bestVal]
  | cons hd rest ih =>
    cases hfa : f hd with
    | none => rw [bestVal_cons_none rest hfa]; simp [hfa, ih]
    | some q => rw [bestVal_cons_some rest hfa]; simp [hfa]

theorem bestVal_achieved (f : Nat × Nat → Option ℚ)
    (l : List (Nat × Nat)) (m : ℚ) (h : bestVal f l = some m) :
    ∃ a ∈ l, f a = some m := by
  induction l with
  | nil => simp [bestVal] at h
  | cons hd rest ih =>
    cases hfa : f hd with
    | none =>
      rw [bestVal_cons_none rest hfa] at h
      obtain ⟨a, ha, hv⟩ := ih h
      exact ⟨a, List.mem_cons_of_mem hd ha, hv⟩
    | some q =>
      rw [bestVal_cons_some rest hfa] at h
      have hm : m = maxWith f q rest := (Option.some.inj h).symm
      rcases maxWith_achieved f rest q with h2 | ⟨a, ha, hv⟩
      · exact ⟨hd, List.mem_cons_self hd rest, by rw [hfa, hm, h2]⟩
      · exact ⟨a, List.mem_cons_of_mem hd ha, by rw [hv, hm]⟩

theorem bestVal_ub (f : Nat × Nat → Option ℚ) (l : List (Nat × Nat))
    (m : ℚ) (h : bestVal f l = some m) :
    ∀ a ∈ l, ∀ q : ℚ, f a = some q → q ≤ m := by
  induction l with
  | nil => intro a ha; exact absurd ha (List.not_mem_nil a)
  | cons hd rest ih =>
    intro a ha q hq
    cases hfa : f hd with
    | none =>
      rw [bestVal_cons_none rest hfa] at h
      rcases List.mem_cons.mp ha with h2 | h2
      · subst h2; rw [hfa] at hq; exact absurd hq (by simp)
      · exact ih h a h2 q hq
    | some p =>
      rw [bestVal_cons_some rest hfa] at h
      have hm : m = maxWith f p rest := (Option.some.inj h).symm
      rcases List.mem_cons.mp ha with h2 | h2
      · subst h2
        rw [hfa] at hq
        rw [hm, ← Option.some.inj hq]
        exact maxWith_ge f rest p
      · rw [hm]; exact maxWith_ub f rest p a h2 q hq

/-- Uniqueness: any value achieved by a valid move and bounding every
recorded value is the `bestVal`. -/
theorem bestVal_eq_of_isMax (f : Nat × Nat → Option ℚ)
    (l : List (Nat × Nat)) (m : ℚ)
    (hex : ∃ a ∈ l, f a = some m)
    (hub : ∀ a ∈ l, ∀ q : ℚ, f a = some q → q ≤ m) :
    bestVal f l = some m := by
  cases hbv : bestVal f l with
  | none =>
    obtain ⟨a, ha, hv⟩ := hex
    rw [(bestVal_none_iff f l).mp hbv a ha] at hv
    exact absurd hv (by simp)
  | some M =>
    obtain ⟨a, ha, hv⟩ := bestVal_achieved f l M hbv
    have h1 : M ≤ m := hub a ha M hv
    obtain ⟨a2, ha2, hv2⟩ := hex
    have h2 : m ≤ M := bestVal_ub f l M hbv a2 ha2 m hv2
    rw [le_antisymm h1 h2]

/-! ## Claim C3 -/

/-- C3 (confirmed): in the exploitation branch, for every state with
valid moves left: if no valid move has a recorded estimate for the
current state key (in particular if the state is unknown or has an
empty entry dict), the draw is uniform over all valid moves; if `m` is
the maximum recorded estimate over the valid moves (achieved by one of
them, and an upper bound of every recorded estimate, with missing
entries skipped), then for `m > 0` the draw is uniform over exactly the
valid moves whose recorded estimate is `m`, and for `m ≤ 0` the draw is
uniform over all valid moves. -/
theorem choose_action_rl_exploit (qt : QTable) (s : StateManager)
    (hvm : get_valid_moves s ≠ []) :
    ((∀ a ∈ get_valid_moves s,
        qget qt (get_state_hash s) (posStr a) = none) →
      choose_action_rl qt s = some (get_valid_moves s))
    ∧ ∀ m : ℚ,
        (∃ a ∈ get_valid_moves s,
          qget qt (get_state_hash s) (posStr a) = some m) →
        (∀ a ∈ get_valid_moves s,
          (qget qt (get_state_hash s) (posStr a)).getD m ≤ m) →
        (0 < m →
          choose_action_rl qt s
            = some ((get_valid_moves s).filter
                fun a => decide
                  (qget qt (get_state_hash s) (posStr a) = some m)))
        ∧ (m ≤ 0 → choose_action_rl qt s = some (get_valid_moves s)) := by
  constructor
  · intro hall
    cases hst : tableGet qt (get_state_hash s) with
    | none => simp [choose_action_rl, hst, hvm]
    | some entries =>
      have hall2 : ∀ a ∈ get_valid_moves s,
          tableGet entries (posStr a) = none := by
        intro a ha
        have h2 := hall a ha
        simp only [qget, hst, Option.some_bind] at h2
        exact h2
      have hbv : bestVal (fun a => tableGet entries (posStr a))
          (get_valid_moves s) = none :=
        (bestVal_none_iff _ _).mpr hall2
      by_cases hne : entries = []
      · simp [choose_action_rl, hst, hvm, hne]
      · simp only [choose_action_rl, hst]
        rw [if_neg hvm, if_neg hne, argmaxAcc_start, hbv]
  · intro m hex hub
    obtain ⟨a0, ha0, hv0⟩ := hex
    cases hst : tableGet qt (get_state_hash s) with
    | none =>
      simp only [qget, hst, Option.none_bind] at hv0
      exact Option.noConfusion hv0
    | some entries =>
      simp only [qget, hst, Option.some_bind] at hv0
      have hub2 : ∀ a ∈ get_valid_moves s, ∀ q : ℚ,
          tableGet entries (posStr a) = some q → q ≤ m := by
        intro a ha q hq
        have h2 := hub a ha
        simp only [qget, hst, Option.some_bind, hq, Option.getD_some]
          at h2
        exact h2
      have hbv : bestVal (fun a => tableGet entries (posStr a))
          (get_valid_moves s) = some m :=
        bestVal_eq_of_isMax _ _ m ⟨a0, ha0, hv0⟩ hub2
      have hne : entries ≠ [] := by
        intro h
        rw [h] at hv0
        exact absurd hv0 (by simp [tableGet])
      have hfne : (get_valid_moves s).filter
          (fun a => decide (tableGet entries (posStr a) = some m))
            ≠ [] := by
        intro h
        have hmem : a0 ∈ (get_valid_moves s).filter
            (fun a => decide (tableGet entries (posStr a) = some m)) :=
          List.mem_filter.mpr ⟨ha0, by simp [hv0]⟩
        rw [h] at hmem
        exact absurd hmem (List.not_mem_nil a0)
      have hfe : (get_valid_moves s).filter
            (fun a => decide (qget qt (get_state_hash s) (posStr a)
                = some m))
          = (get_valid_moves s).filter
              (fun a => decide (tableGet entries (posStr a) = some m)) :=
        List.filter_congr (by intro a ha; simp [qget, hst])
      constructor
      · intro hpos
        rw [hfe]
        simp only [choose_action_rl, hst]
        rw [if_neg hvm, if_neg hne, argmaxAcc_start, hbv]
        simp only []
        rw [if_pos ⟨hfne, hpos⟩]
      · intro hnonpos
        simp only [choose_action_rl, hst]
        rw [if_neg hvm, if_neg hne, argmaxAcc_start, hbv]
        simp only []
        rw [if_neg (fun hc => absurd hc.2 (not_lt.mpr hnonpos))]

/-- C3 witness: a 2×2 board with an empty revealed set; the state key
`_3_0` records 5.0 for `(0,0)` and `(1,1)`: the exploitation pool is
exactly those two maximizers. -/
theorem choose_action_rl_exploit_witness :
    choose_action_rl [("_3_0", [("0,0", (5 : ℚ)), ("1,1", 5)])]
        (StateManager.mk 2 3 [] ∅ 0)
      = some [(0, 0), (1, 1)] := by
  have hsh : get_state_hash (StateManager.mk 2 3 [] ∅ 0) = "_3_0" := by
    simp only [get_state_hash, Finset.sort_empty, List.map_nil, joinComma]
    rfl
  have h := (choose_action_rl_exploit
      [("_3_0", [("0,0", (5 : ℚ)), ("1,1", 5)])]
      (StateManager.mk 2 3 [] ∅ 0) (by decide)).2 5
      (⟨(0, 0), by decide, by rw [hsh]; decide⟩)
      (by simp only [hsh]; decide)
  rw [h.1 (by norm_num)]
  simp only [hsh]
  decide

/-! ## Character lemmas for state keys (Claim C7) -/

theorem digitChar_isDigit (n : Nat) (h : n < 10) :
    (Nat.digitChar n).isDigit = true := by
  interval_cases n <;> decide

theorem toDigitsCore_digits : ∀ (fuel n : Nat) (ds : List Char),
    (∀ c ∈ ds, c.isDigit = true) →
    ∀ c ∈ Nat.toDigitsCore 10 fuel n ds, c.isDigit = true := by
  intro fuel
  induction fuel with
  | zero =>
    intro n ds hds c hc
    simp only [Nat.toDigitsCore] at hc
    exact hds c hc
  | succ fuel ih =>
    intro n ds hds c hc
    have hdig : (Nat.digitChar (n % 10)).isDigit = true :=
      digitChar_isDigit _ (Nat.mod_lt n (by norm_num))
    have hds2 : ∀ c2 ∈ Nat.digitChar (n % 10) :: ds,
        c2.isDigit = true := by
      intro c2 hc2
      rcases List.mem_cons.mp hc2 with h | h
      · rw [h]; exact hdig
      · exact hds c2 h
    simp only [Nat.toDigitsCore] at hc
    by_cases h0 : n / 10 = 0
    · rw [if_pos h0] at hc
      exact hds2 c hc
    · rw [if_neg h0] at hc
      exact ih (n / 10) _ hds2 c hc

theorem repr_digits (n : Nat) :
    ∀ c ∈ (Nat.repr n).data, c.isDigit = true := by
  intro c hc
  have hdata : (Nat.repr n).data = Nat.toDigitsCore 10 (n + 1) n [] := rfl
  rw [hdata] at hc
  exact toDigitsCore_digits (n + 1) n []
    (by intro c2 hc2; exact absurd hc2 (List.not_mem_nil c2)) c hc

theorem posStr_chars (p : Nat × Nat) :
    ∀ c ∈ (posStr p).data, c.isDigit = true ∨ c = ',' := by
  intro c hc
  simp only [posStr, String.data_append, List.mem_append] at hc
  rcases hc with (h1 | h2) | h3
  · exact Or.inl (repr_digits _ c h1)
  · right
    simpa using h2
  · exact Or.inl (repr_digits _ c h3)

theorem joinComma_chars (l : List String)
    (h : ∀ x ∈ l, ∀ c ∈ x.data, c.isDigit = true ∨ c = ',') :
    ∀ c ∈ (joinComma l).data, c.isDigit = true ∨ c = ',' := by
  induction l with
  | nil =>
    intro c hc
    exact absurd hc (List.not_mem_nil c)
  | cons x rest ih =>
    cases rest with
    | nil =>
      intro c hc
      exact h x (List.mem_cons_self x []) c hc
    | cons y rest2 =>
      intro c hc
      have hx : joinComma (x :: y :: rest2)
          = x ++ "," ++ joinComma (y :: rest2) := rfl
      rw [hx] at hc
      simp only [String.data_append, List.mem_append] at hc
      rcases hc with (h1 | h2) | h3
      · exact h x (List.mem_cons_self x (y :: rest2)) c h1
      · right
        simpa using h2
      · exact ih (fun x2 hx2 => h x2 (List.mem_cons_of_mem x hx2)) c h3

theorem get_state_hash_chars (s : StateManager) :
    ∀ c ∈ (get_state_hash s).data,
      c.isDigit = true ∨ c = ',' ∨ c = '_' := by
  intro c hc
  simp only [get_state_hash, String.data_append, List.mem_append] at hc
  rcases hc with (((hj | h1) | hb) | h2) | hd
  · have hmap : ∀ x ∈ (s.revealed_positions.sort posLe).map posStr,
        ∀ c2 ∈ x.data, c2.isDigit = true ∨ c2 = ',' := by
      intro x hx c2 hc2
      obtain ⟨p, _, rfl⟩ := List.mem_map.mp hx
      exact posStr_chars p c2 hc2
    rcases joinComma_chars _ hmap c hj with h | h
    · exact Or.inl h
    · exact Or.inr (Or.inl h)
  · exact Or.inr (Or.inr (by simpa using h1))
  · exact Or.inl (repr_digits _ c hb)
  · exact Or.inr (Or.inr (by simpa using h2))
  · exact Or.inl (repr_digits _ c hd)

/-- The `unknown_<bombs>_0` keys contain the letter `u`, which no state
hash can contain. -/
theorem get_state_hash_ne_unknown_key (s : StateManager) (b : Nat) :
    get_state_hash s ≠ unknown_key b := by
  intro h
  have hu : 'u' ∈ (unknown_key b).data := by
    simp only [unknown_key, String.data_append, List.mem_append]
    left; left; left
    decide
  rw [← h] at hu
  rcases get_state_hash_chars s 'u' hu with hd | hc | hus
  · exact absurd hd (by decide)
  · exact absurd hc (by decide)
  · exact absurd hus (by decide)

/-! ## Q-table-key isolation (Claim C7) -/

theorem tableGet_foldl_setQEntry (ps : List (Nat × Nat)) (qt : QTable)
    (key : String) (v : ℚ) (k : String) (h : k ≠ key) :
    tableGet (ps.foldl (fun t p => setQEntry t key (posStr p) v) qt) k
      = tableGet qt k := by
  induction ps generalizing qt with
  | nil => rfl
  | cons p rest ih =>
    rw [List.foldl_cons, ih]
    unfold setQEntry
    exact tableGet_tableSet_ne _ _ _ _ h

theorem tableGet_learn_from_game (qt : QTable) (b : Nat)
    (bh dh : List (String × List (Nat × Nat))) (gid k : String)
    (h : k ≠ unknown_key b) :
    tableGet (learn_from_game qt b bh dh gid) k = tableGet qt k := by
  unfold learn_from_game
  split
  · rfl
  · dsimp only
    exact (tableGet_foldl_setQEntry ((tableGet dh gid).getD [])
        (List.foldl (fun t p => setQEntry t (unknown_key b) (posStr p)
          (-5)) qt ((tableGet bh gid).getD [])) (unknown_key b) 2 k
        h).trans
      (tableGet_foldl_setQEntry ((tableGet bh gid).getD []) qt
        (unknown_key b) (-5) k h)

theorem choose_action_rl_congr (qt1 qt2 : QTable) (s : StateManager)
    (h : tableGet qt1 (get_state_hash s)
      = tableGet qt2 (get_state_hash s)) :
    choose_action_rl qt1 s = choose_action_rl qt2 s := by
  simp only [choose_action_rl, h]

/-! ## Claim C7 -/

/-- C7 (confirmed): the `unknown_<bombs>_0` keys written by
`learn_from_game` differ from `get_state_hash` of every grid state (a
state hash consists only of digits, commas and underscores, while the
key contains `u`); consequently `choose_action_rl` — which reads the
table only at the current state hash — returns the same pool whether or
not `learn_from_game` has run, for every state, table, bomb count,
history and game id. -/
theorem learn_from_game_invisible (s : StateManager) (qt : QTable)
    (b : Nat) (bh dh : List (String × List (Nat × Nat)))
    (gid : String) :
    get_state_hash s ≠ unknown_key b
      ∧ choose_action_rl (learn_from_game qt b bh dh gid) s
          = choose_action_rl qt s := by
  refine ⟨get_state_hash_ne_unknown_key s b, ?_⟩
  exact choose_action_rl_congr _ _ s
    (tableGet_learn_from_game qt b bh dh gid (get_state_hash s)
      (get_state_hash_ne_unknown_key s b))

/-! ## Pattern-search lemmas (Claim C10) -/

theorem parseDecimal_no_head_digit (l : List Char)
    (h : headIsDigit l = false) : parseDecimal l = none := by
  cases l with
  | nil => rfl
  | cons c cs =>
    simp only [headIsDigit] at h
    simp [parseDecimal, takeDigits, h]

theorem searchNumAfter_none (pat : List Char) :
    ∀ l : List Char, hasNumPat pat l = false →
      searchNumAfter pat l = none := by
  intro l
  induction l with
  | nil => intro _; rfl
  | cons c cs ih =>
    intro h
    simp only [hasNumPat, Bool.or_eq_false_iff, Bool.and_eq_false_iff]
      at h
    obtain ⟨h1, h2⟩ := h
    simp only [searchNumAfter]
    by_cases hl : litAtHead pat (c :: cs) = true
    · rw [if_pos hl]
      rcases h1 with hfalse | hhd
      · rw [hl] at hfalse; exact absurd hfalse (by simp)
      · rw [parseDecimal_no_head_digit _ hhd]
        exact ih h2
    · rw [if_neg hl]
      exact ih h2

/-! ## Claim C10 -/

/-- C10 (confirmed): when the round-ended text contains no occurrence
of the literal `You won ` (resp. `multiplier `) followed by a digit —
i.e. the regular expressions cannot match — the extractors return the
neutral values `0.0` and `1.0`; both are total functions of the text,
so no exception can propagate. -/
theorem extract_defaults (text : String)
    (h1 : hasNumPat "You won ".data text.data = false)
    (h2 : hasNumPat "multiplier ".data text.data = false) :
    extract_win_amount text = 0 ∧ extract_multiplier text = 1 := by
  unfold extract_win_amount extract_multiplier
  rw [searchNumAfter_none _ _ h1, searchNumAfter_none _ _ h2]
  exact ⟨rfl, rfl⟩

/-- C10 witness: a text matching neither pattern. -/
theorem extract_defaults_witness :
    hasNumPat "You won ".data "Game over! You lost.".data = false
      ∧ hasNumPat "multiplier ".data "Game over! You lost.".data = false
      ∧ extract_win_amount "Game over! You lost." = 0
      ∧ extract_multiplier "Game over! You lost." = 1 :=
  ⟨by decide, by decide,
    (extract_defaults "Game over! You lost." (by decide) (by decide)).1,
    (extract_defaults "Game over! You lost." (by decide) (by decide)).2⟩

end Zoro
